import Mathlib

/-!
Verification development for the Helix MP3 decoder front-end
(src/src/helix_mp3.c).  The C source is shallowly embedded: buffers become
lists, the seekable byte source becomes an explicit record of contents and
position, the opaque decode primitive (external Helix library) becomes a
parameter, and every stateful routine becomes a state-passing function.
Machine integers are modelled by Nat/Int; all arithmetic in the embedded
routines stays far below any fixed-width bound, matching the C values.
-/

namespace HelixSpec

/-! ## Generic list lemmas used throughout -/

theorem getD_set_ne {α : Type} (l : List α) (i j : Nat) (v d : α) (h : i ≠ j) :
    (l.set i v).getD j d = l.getD j d := by
  simp only [List.getD_eq_getElem?_getD]
  rw [List.getElem?_set_ne h]

theorem getD_set_lt {α : Type} (l : List α) (i : Nat) (v d : α) (h : i < l.length) :
    (l.set i v).getD i d = v := by
  simp only [List.getD_eq_getElem?_getD]
  rw [List.getElem?_set_self', List.getElem?_eq_getElem h]
  rfl

theorem lor_two_pow_add (k : Nat) :
    ∀ a b : Nat, b < 2 ^ k → (a * 2 ^ k) ||| b = a * 2 ^ k + b := by
  induction k with
  | zero =>
    intro a b hb
    have hb0 : b = 0 := by omega
    subst hb0
    simp
  | succ k ih =>
    intro a b hb
    have h1 : a * 2 ^ (k + 1) = Nat.bit false (a * 2 ^ k) := by
      rw [Nat.bit_val, Bool.toNat_false, Nat.pow_succ]
      ring
    have h2 : Nat.bit b.bodd b.div2 = b := Nat.bit_decomp b
    have hdiv : b.div2 < 2 ^ k := by
      have hp : 2 ^ (k + 1) = 2 ^ k * 2 := Nat.pow_succ ..
      have : b.div2 = b / 2 := Nat.div2_val b
      omega
    calc a * 2 ^ (k + 1) ||| b
        = Nat.bit false (a * 2 ^ k) ||| Nat.bit b.bodd b.div2 := by rw [h1, h2]
      _ = Nat.bit (false || b.bodd) (a * 2 ^ k ||| b.div2) := Nat.lor_bit ..
      _ = Nat.bit b.bodd (a * 2 ^ k + b.div2) := by rw [Bool.false_or, ih a b.div2 hdiv]
      _ = a * 2 ^ (k + 1) + b := by
          have hb2 : 2 * b.div2 + b.bodd.toNat = b := (Nat.bit_val b.bodd b.div2).symm.trans h2
          have hp : 2 ^ (k + 1) = 2 ^ k * 2 := Nat.pow_succ ..
          have hq : a * 2 ^ (k + 1) = a * 2 ^ k * 2 := by rw [hp, Nat.mul_assoc]
          rw [Nat.bit_val]
          omega

/-! ## The seekable byte source

Models the `FILE *` handle consumed through `fseek`, `fread`, `fopen`,
`fclose`: a finite byte string plus a read position.  On a regular file
`fseek(fd, off, SEEK_SET)` succeeds for any non-negative offset, so the
seek operation is total here while keeping the fallible interface shape
that the C code checks; `fread` returns however many items remain, short
at end of file. -/

structure ByteFile where
  data : List Nat
  pos : Nat
deriving DecidableEq, Repr

/-- Embeds a successful `fseek(fd, off, SEEK_SET)` on a regular file. -/
def fseekSet (f : ByteFile) (off : Nat) : Option ByteFile :=
  some { f with pos := off }

/-- Embeds `fread(buf, 1, n, fd)`: yields the bytes actually obtained
(short count at end of file) and the advanced stream. -/
def freadBytes (f : ByteFile) (n : Nat) : List Nat × ByteFile :=
  let got := (f.data.drop f.pos).take n
  (got, { f with pos := f.pos + got.length })

theorem freadBytes_length (f : ByteFile) (n : Nat) :
    (freadBytes f n).1.length = min n (f.data.length - f.pos) := by
  simp [freadBytes]

/-! ## The Tag Skipper: helix_mp3_skip_id3v2_tag (lines 9-43) -/

/-- Error code `EIO` (5): input/output error. -/
def eioCode : Int := 5

/-- Error code `EINVAL` (22): invalid argument. -/
def einvalCode : Int := 22

/-- Error code `ENOMEM` (12): out of memory. -/
def enomemCode : Int := 12

/-- Error code `ENOENT` (2): no such file or directory. -/
def enoentCode : Int := 2

/-- Error code `ENOTSUP` (95): operation not supported. -/
def enotsupCode : Int := 95

/-- The three magic bytes of the string "ID3". -/
def id3Magic : List Nat := [73, 68, 51]

/-- The syncsafe size computation of lines 34-36: the low seven bits of
probe bytes 6..9, concatenated big-endian, plus the 10-byte header. -/
def id3TagTotalSize (b6 b7 b8 b9 : Nat) : Nat :=
  ((((b6 &&& 0x7F) <<< 21) ||| ((b7 &&& 0x7F) <<< 14)) |||
    (((b8 &&& 0x7F) <<< 7) ||| ((b9 &&& 0x7F) <<< 0))) + 10

/-- Embeds `helix_mp3_skip_id3v2_tag`: returns the C function's `int`
result together with the byte source as the call leaves it. -/
def helix_mp3_skip_id3v2_tag (fd : ByteFile) : Int × ByteFile :=
  match fseekSet fd 0 with
  | none => (-eioCode, fd)
  | some f1 =>
    let rd := freadBytes f1 10
    if rd.1.length ≠ 10 then (-eioCode, rd.2)
    else if rd.1.take 3 ≠ id3Magic then (0, rd.2)
    else
      let total := id3TagTotalSize (rd.1.getD 6 0) (rd.1.getD 7 0) (rd.1.getD 8 0) (rd.1.getD 9 0)
      match fseekSet rd.2 total with
      | none => (-eioCode, rd.2)
      | some f3 => ((total : Int), f3)

theorem and_mask_127 (b : Nat) : b &&& 127 = b % 128 := by
  apply Nat.eq_of_testBit_eq
  intro i
  have h1 : (127 : Nat) = 2 ^ 7 - 1 := by norm_num
  have h2 : (128 : Nat) = 2 ^ 7 := by norm_num
  rw [Nat.testBit_land, h1, Nat.testBit_two_pow_sub_one, h2, Nat.testBit_mod_two_pow,
    Bool.and_comm]

/-- The syncsafe field is the big-endian concatenation of the four low-7-bit
groups: the bitwise-or of the shifted masked bytes equals their sum. -/
theorem id3TagTotalSize_eq (b6 b7 b8 b9 : Nat) :
    id3TagTotalSize b6 b7 b8 b9 =
      (b6 % 128) * 2 ^ 21 + (b7 % 128) * 2 ^ 14 + (b8 % 128) * 2 ^ 7 + b9 % 128 + 10 := by
  unfold id3TagTotalSize
  rw [and_mask_127, and_mask_127, and_mask_127, and_mask_127,
    Nat.shiftLeft_eq, Nat.shiftLeft_eq, Nat.shiftLeft_eq, Nat.shiftLeft_eq, Nat.pow_zero,
    Nat.mul_one]
  have m7 : b7 % 128 < 128 := Nat.mod_lt _ (by norm_num)
  have m8 : b8 % 128 < 128 := Nat.mod_lt _ (by norm_num)
  have m9 : b9 % 128 < 128 := Nat.mod_lt _ (by norm_num)
  have e1 : ((b8 % 128) * 2 ^ 7) ||| (b9 % 128) = (b8 % 128) * 2 ^ 7 + b9 % 128 :=
    lor_two_pow_add 7 _ _ (by norm_num [m9])
  have e2 : ((b6 % 128) * 2 ^ 21) ||| ((b7 % 128) * 2 ^ 14) =
      (b6 % 128) * 2 ^ 21 + (b7 % 128) * 2 ^ 14 :=
    lor_two_pow_add 21 _ _ (by nlinarith [m7])
  have e3 : ((b6 % 128) * 2 ^ 21 + (b7 % 128) * 2 ^ 14) =
      ((b6 % 128) * 2 ^ 7 + b7 % 128) * 2 ^ 14 := by ring
  rw [e1, e2, e3]
  rw [lor_two_pow_add 14 _ _ (by nlinarith [m8, m9])]
  ring

theorem getD_take (l : List Nat) (n i : Nat) (d : Nat) (h : i < n) :
    (l.take n).getD i d = l.getD i d := by
  simp only [List.getD_eq_getElem?_getD]
  rw [List.getElem?_take, if_pos h]

theorem skip_tag_short (fd : ByteFile) (h : fd.data.length < 10) :
    (helix_mp3_skip_id3v2_tag fd).1 = -eioCode := by
  simp only [helix_mp3_skip_id3v2_tag, fseekSet, freadBytes, List.drop_zero]
  rw [if_pos (by simp [List.length_take]; omega)]

/-- The total tag size the skipper computes, as a function of the file
contents (probe bytes 6..9 of the data). -/
def skipTagSize (fd : ByteFile) : Nat :=
  id3TagTotalSize (fd.data.getD 6 0) (fd.data.getD 7 0) (fd.data.getD 8 0) (fd.data.getD 9 0)

theorem skip_tag_no_magic (fd : ByteFile) (hge : 10 ≤ fd.data.length)
    (hmagic : fd.data.take 3 ≠ id3Magic) :
    helix_mp3_skip_id3v2_tag fd = (0, { fd with pos := 10 }) := by
  have htake : (fd.data.take 10).take 3 = fd.data.take 3 := by
    rw [List.take_take]
    norm_num
  simp only [helix_mp3_skip_id3v2_tag, fseekSet, freadBytes, List.drop_zero]
  rw [if_neg (by simp [List.length_take]; omega)]
  rw [if_pos (by rw [htake]; exact hmagic)]
  have hl : (fd.data.take 10).length = 10 := by simp [List.length_take]; omega
  simp [hl]

theorem skip_tag_magic (fd : ByteFile) (hge : 10 ≤ fd.data.length)
    (hmagic : fd.data.take 3 = id3Magic) :
    helix_mp3_skip_id3v2_tag fd =
      (Int.ofNat (skipTagSize fd), { fd with pos := skipTagSize fd }) := by
  have htake : (fd.data.take 10).take 3 = fd.data.take 3 := by
    rw [List.take_take]
    norm_num
  simp only [helix_mp3_skip_id3v2_tag, fseekSet, freadBytes, List.drop_zero]
  rw [if_neg (by simp [List.length_take]; omega)]
  rw [if_neg (by rw [htake]; simp [hmagic])]
  have hl : (fd.data.take 10).length = 10 := by simp [List.length_take]; omega
  rw [getD_take fd.data 10 6 0 (by omega), getD_take fd.data 10 7 0 (by omega),
    getD_take fd.data 10 8 0 (by omega), getD_take fd.data 10 9 0 (by omega)]
  simp [hl, skipTagSize]

/-- C4: the Tag Skipper probes 10 bytes from offset 0; in this byte-source
model seeks on a regular file always succeed, so it fails with -EIO exactly
when the 10-byte read comes up short; on a magic mismatch it returns 0 with
the position after the probe; on a magic match it returns the syncsafe size
(big-endian concatenation of the low 7 bits of probe bytes 6..9) plus the
10-byte header, and seeks to that absolute offset. -/
theorem c4_tag_skipper (fd : ByteFile) :
    ((helix_mp3_skip_id3v2_tag fd).1 < 0 ↔ fd.data.length < 10) ∧
    (10 ≤ fd.data.length → fd.data.take 3 ≠ id3Magic →
      helix_mp3_skip_id3v2_tag fd = (0, { fd with pos := 10 })) ∧
    (10 ≤ fd.data.length → fd.data.take 3 = id3Magic →
      helix_mp3_skip_id3v2_tag fd =
        (Int.ofNat ((fd.data.getD 6 0 % 128) * 2 ^ 21 + (fd.data.getD 7 0 % 128) * 2 ^ 14 +
          (fd.data.getD 8 0 % 128) * 2 ^ 7 + fd.data.getD 9 0 % 128 + 10),
         { fd with
           pos := (fd.data.getD 6 0 % 128) * 2 ^ 21 + (fd.data.getD 7 0 % 128) * 2 ^ 14 +
             (fd.data.getD 8 0 % 128) * 2 ^ 7 + fd.data.getD 9 0 % 128 + 10 })) := by
  refine ⟨?_, skip_tag_no_magic fd, ?_⟩
  · constructor
    · intro h
      by_contra hge
      push_neg at hge
      by_cases hmagic : fd.data.take 3 = id3Magic
      · rw [skip_tag_magic fd hge hmagic] at h
        simp at h
        omega
      · rw [skip_tag_no_magic fd hge hmagic] at h
        simp at h
    · intro h
      rw [skip_tag_short fd h]
      simp [eioCode]
  · intro hge hmagic
    rw [skip_tag_magic fd hge hmagic]
    simp only [skipTagSize, id3TagTotalSize_eq]

/-- C4 witness: a concrete 12-byte file carrying an ID3 tag whose syncsafe
body size is 257 is skipped to absolute offset 267, obtained by applying
the theorem at this input. -/
theorem c4_tag_skipper_witness :
    helix_mp3_skip_id3v2_tag { data := [73, 68, 51, 4, 0, 0, 0, 0, 2, 1, 9, 9], pos := 0 } =
      (Int.ofNat 267, { data := [73, 68, 51, 4, 0, 0, 0, 0, 2, 1, 9, 9], pos := 267 }) := by
  have h := (c4_tag_skipper { data := [73, 68, 51, 4, 0, 0, 0, 0, 2, 1, 9, 9], pos := 0 }).2.2
    (by decide) (by decide)
  simpa using h

/-! ## The Decoder Handle (struct helix_mp3_t) and the Input Stager

The opaque Helix decode state is a type parameter `S`.  The compressed
input buffer has fixed capacity `HELIX_MP3_DATA_CHUNK_SIZE`; that constant
lives in the repository header, which is not part of the sources here, so
the capacity is carried as an explicit parameter `C` (the spec, section
4.2, only requires it to be a fixed capacity).  `mp3ReadPtr` is the offset
of the first unread byte inside the buffer, as the spec's data model
describes the pointer. -/

structure Handle (S : Type) where
  dec : S
  mp3Fd : ByteFile
  mp3Buffer : List Nat
  mp3ReadPtr : Nat
  mp3BytesLeft : Nat
  pcmBuffer : List Int
  pcmSamplesLeft : Nat
  currentSampleRate : Nat
  currentBitrate : Nat
  currentPcmFrame : Nat
deriving DecidableEq, Repr

/-- The input-buffer invariant of the spec data model: the unread region
lies inside the buffer and the buffer has the fixed capacity. -/
def InputInv {S : Type} (C : Nat) (mp3 : Handle S) : Prop :=
  mp3.mp3ReadPtr + mp3.mp3BytesLeft ≤ C ∧ mp3.mp3Buffer.length = C

/-- Embeds `helix_mp3_fill_mp3_buffer` (lines 45-60): memmove of the unread
region to the front, an fread of the free space, and a zero fill of the
shortfall.  Returns `bytes_read` and the updated handle; like the C helper
it does not touch `mp3ReadPtr` or `mp3BytesLeft`. -/
def helix_mp3_fill_mp3_buffer {S : Type} (C : Nat) (mp3 : Handle S) : Nat × Handle S :=
  let moved := (mp3.mp3Buffer.drop mp3.mp3ReadPtr).take mp3.mp3BytesLeft
  let buf1 := moved ++ mp3.mp3Buffer.drop mp3.mp3BytesLeft
  let bytesToRead := C - mp3.mp3BytesLeft
  let rd := freadBytes mp3.mp3Fd bytesToRead
  let buf2 := buf1.take mp3.mp3BytesLeft ++ rd.1 ++ List.replicate (bytesToRead - rd.1.length) 0
  (rd.1.length, { mp3 with mp3Buffer := buf2, mp3Fd := rd.2 })

/-- The fill operation as the Frame Pump invokes it (lines 77-79): run the
helper, then add `bytes_read` to `mp3BytesLeft` and reset `mp3ReadPtr` to
the buffer start. -/
def fillAndUpdate {S : Type} (C : Nat) (mp3 : Handle S) : Handle S :=
  let r := helix_mp3_fill_mp3_buffer C mp3
  { r.2 with mp3BytesLeft := mp3.mp3BytesLeft + r.1, mp3ReadPtr := 0 }

/-- C5: under the input-buffer invariant, the fill operation compacts the
`mp3BytesLeft` unread bytes to the buffer start, follows them with up to
`C - mp3BytesLeft` bytes actually obtained from the byte source, zero-fills
the remainder of the buffer, and leaves `mp3ReadPtr` at the start and
`mp3BytesLeft` equal to its previous value plus the bytes actually read. -/
theorem c5_input_stager_fill {S : Type} (C : Nat) (mp3 : Handle S)
    (hinv : InputInv C mp3) :
    (fillAndUpdate C mp3).mp3ReadPtr = 0 ∧
    (fillAndUpdate C mp3).mp3BytesLeft =
      mp3.mp3BytesLeft +
        min (C - mp3.mp3BytesLeft) (mp3.mp3Fd.data.length - mp3.mp3Fd.pos) ∧
    (fillAndUpdate C mp3).mp3Buffer =
      (mp3.mp3Buffer.drop mp3.mp3ReadPtr).take mp3.mp3BytesLeft ++
      (mp3.mp3Fd.data.drop mp3.mp3Fd.pos).take (C - mp3.mp3BytesLeft) ++
      List.replicate (C - mp3.mp3BytesLeft -
        min (C - mp3.mp3BytesLeft) (mp3.mp3Fd.data.length - mp3.mp3Fd.pos)) 0 ∧
    (fillAndUpdate C mp3).mp3Buffer.length = C := by
  obtain ⟨hptr, hlen⟩ := hinv
  have hmoved : ((mp3.mp3Buffer.drop mp3.mp3ReadPtr).take mp3.mp3BytesLeft).length =
      mp3.mp3BytesLeft := by
    simp [List.length_take, List.length_drop, hlen]
    omega
  have htake : (((mp3.mp3Buffer.drop mp3.mp3ReadPtr).take mp3.mp3BytesLeft) ++
      mp3.mp3Buffer.drop mp3.mp3BytesLeft).take mp3.mp3BytesLeft =
      (mp3.mp3Buffer.drop mp3.mp3ReadPtr).take mp3.mp3BytesLeft := by
    rw [List.take_append_eq_append_take, hmoved]
    simp
  refine ⟨rfl, ?_, ?_, ?_⟩
  · show mp3.mp3BytesLeft + (freadBytes mp3.mp3Fd (C - mp3.mp3BytesLeft)).1.length = _
    rw [freadBytes_length]
  · show (((mp3.mp3Buffer.drop mp3.mp3ReadPtr).take mp3.mp3BytesLeft) ++
        mp3.mp3Buffer.drop mp3.mp3BytesLeft).take mp3.mp3BytesLeft ++
        (freadBytes mp3.mp3Fd (C - mp3.mp3BytesLeft)).1 ++
        List.replicate (C - mp3.mp3BytesLeft -
          (freadBytes mp3.mp3Fd (C - mp3.mp3BytesLeft)).1.length) 0 = _
    rw [htake, freadBytes_length]
    simp [freadBytes]
  · show ((((mp3.mp3Buffer.drop mp3.mp3ReadPtr).take mp3.mp3BytesLeft) ++
        mp3.mp3Buffer.drop mp3.mp3BytesLeft).take mp3.mp3BytesLeft ++
        (freadBytes mp3.mp3Fd (C - mp3.mp3BytesLeft)).1 ++
        List.replicate (C - mp3.mp3BytesLeft -
          (freadBytes mp3.mp3Fd (C - mp3.mp3BytesLeft)).1.length) 0).length = C
    rw [htake]
    simp only [List.length_append, hmoved, freadBytes_length, List.length_replicate]
    omega

/-- C5 witness: a concrete fill on a 4-byte buffer holding one unread byte,
with two bytes left in the source, through the theorem itself. -/
theorem c5_input_stager_fill_witness :
    let mp3 : Handle Unit :=
      { dec := (), mp3Fd := { data := [1, 2, 3, 4, 5], pos := 3 },
        mp3Buffer := [9, 8, 7, 6], mp3ReadPtr := 2, mp3BytesLeft := 1,
        pcmBuffer := [], pcmSamplesLeft := 0,
        currentSampleRate := 0, currentBitrate := 0, currentPcmFrame := 0 }
    (fillAndUpdate 4 mp3).mp3ReadPtr = 0 ∧
    (fillAndUpdate 4 mp3).mp3BytesLeft = 3 ∧
    (fillAndUpdate 4 mp3).mp3Buffer = [7, 4, 5, 0] := by
  intro mp3
  have h := c5_input_stager_fill (S := Unit) 4 mp3 (by constructor <;> decide)
  refine ⟨h.1, ?_, ?_⟩
  · have := h.2.1
    simpa using this
  · have := h.2.2.1
    simpa using this

/-! ## The Channel Normalizer: helix_mp3_convert_pcm_mono_to_stereo (62-69) -/

/-- One iteration of the expansion loop at index `i` (lines 65-66), with the
sequential store semantics of the C statements: first
`pcm_buffer[2*i] = pcm_buffer[i]`, then `pcm_buffer[2*i+1] = pcm_buffer[i]`. -/
def monoBody (buf : List Int) (i : Nat) : List Int :=
  let buf1 := buf.set (2 * i) (buf.getD i 0)
  buf1.set (2 * i + 1) (buf1.getD i 0)

/-- The expansion loop of line 64, running `i = k-1, k-2, ..., 0`. -/
def monoLoop (buf : List Int) : Nat → List Int
  | 0 => buf
  | k + 1 => monoLoop (monoBody buf k) k

/-- Embeds `helix_mp3_convert_pcm_mono_to_stereo` acting on the PCM buffer
and the `pcm_samples_left` count `n`. -/
def helix_mp3_convert_pcm_mono_to_stereo (buf : List Int) (n : Nat) : List Int × Nat :=
  (monoLoop buf n, n * 2)

theorem monoBody_length (buf : List Int) (i : Nat) :
    (monoBody buf i).length = buf.length := by
  simp [monoBody]

theorem monoLoop_length (k : Nat) :
    ∀ buf : List Int, (monoLoop buf k).length = buf.length := by
  induction k with
  | zero => intro buf; rfl
  | succ k ih =>
    intro buf
    rw [monoLoop, ih, monoBody_length]

theorem monoBody_getD_untouched (buf : List Int) (i p : Nat)
    (h1 : p ≠ 2 * i) (h2 : p ≠ 2 * i + 1) :
    (monoBody buf i).getD p 0 = buf.getD p 0 := by
  unfold monoBody
  rw [getD_set_ne _ _ _ _ _ (fun he => h2 he.symm),
    getD_set_ne _ _ _ _ _ (fun he => h1 he.symm)]

theorem monoLoop_getD_high (k : Nat) :
    ∀ (buf : List Int) (p : Nat), 2 * k ≤ p → (monoLoop buf k).getD p 0 = buf.getD p 0 := by
  induction k with
  | zero => intro buf p _; rfl
  | succ k ih =>
    intro buf p hp
    rw [monoLoop, ih (monoBody buf k) p (by omega),
      monoBody_getD_untouched buf k p (by omega) (by omega)]

theorem monoBody_getD_low (buf : List Int) (i j : Nat) (h : j < i) :
    (monoBody buf i).getD j 0 = buf.getD j 0 :=
  monoBody_getD_untouched buf i j (by omega) (by omega)

theorem monoBody_getD_pair (buf : List Int) (i : Nat) (h : 2 * i + 1 < buf.length) :
    (monoBody buf i).getD (2 * i) 0 = buf.getD i 0 ∧
    (monoBody buf i).getD (2 * i + 1) 0 = buf.getD i 0 := by
  unfold monoBody
  have hlen1 : (buf.set (2 * i) (buf.getD i 0)).length = buf.length := by simp
  constructor
  · rw [getD_set_ne _ _ _ _ _ (by omega)]
    exact getD_set_lt buf (2 * i) _ 0 (by omega)
  · rw [getD_set_lt _ (2 * i + 1) _ 0 (by omega)]
    by_cases hi : i = 2 * i
    · rw [← hi]
      have hi0 : i = 0 := by omega
      subst hi0
      exact getD_set_lt buf 0 _ 0 (by omega)
    · exact getD_set_ne _ _ _ _ _ (fun he => hi he.symm)

theorem monoLoop_getD_pair (k : Nat) :
    ∀ (buf : List Int), 2 * k ≤ buf.length → ∀ j, j < k →
      (monoLoop buf k).getD (2 * j) 0 = buf.getD j 0 ∧
      (monoLoop buf k).getD (2 * j + 1) 0 = buf.getD j 0 := by
  induction k with
  | zero => intro buf _ j hj; omega
  | succ k ih =>
    intro buf hlen j hj
    rw [monoLoop]
    by_cases hjk : j < k
    · have hb := monoBody_length buf k
      have hih := ih (monoBody buf k) (by omega) j hjk
      rw [monoBody_getD_low buf k j hjk] at hih
      exact hih
    · have hjeq : j = k := by omega
      subst hjeq
      have hpair := monoBody_getD_pair buf j (by omega)
      constructor
      · rw [monoLoop_getD_high j (monoBody buf j) (2 * j) (by omega), hpair.1]
      · rw [monoLoop_getD_high j (monoBody buf j) (2 * j + 1) (by omega), hpair.2]

/-- C3: the Channel Normalizer on `n` mono samples in the first `n` slots
rewrites the buffer so that slots `2j` and `2j+1` both hold sample `j`, for
every `j < n`, and sets the remaining-sample count to `2n`; stated under
the in-range condition `2n` at most the buffer capacity, which is the
regime claim C10 isolates. -/
theorem c3_mono_to_stereo (buf : List Int) (n : Nat) (h : 2 * n ≤ buf.length) :
    (helix_mp3_convert_pcm_mono_to_stereo buf n).2 = 2 * n ∧
    ∀ j, j < n →
      (helix_mp3_convert_pcm_mono_to_stereo buf n).1.getD (2 * j) 0 = buf.getD j 0 ∧
      (helix_mp3_convert_pcm_mono_to_stereo buf n).1.getD (2 * j + 1) 0 = buf.getD j 0 := by
  refine ⟨by simp [helix_mp3_convert_pcm_mono_to_stereo]; ring, ?_⟩
  intro j hj
  exact monoLoop_getD_pair n buf h j hj

/-- C3 witness: two mono samples in a four-slot buffer expand to two equal
interleaved pairs with count 4, through the theorem itself. -/
theorem c3_mono_to_stereo_witness :
    (helix_mp3_convert_pcm_mono_to_stereo [5, -7, 9, 9] 2).2 = 4 ∧
    (helix_mp3_convert_pcm_mono_to_stereo [5, -7, 9, 9] 2).1.getD 0 0 = 5 ∧
    (helix_mp3_convert_pcm_mono_to_stereo [5, -7, 9, 9] 2).1.getD 1 0 = 5 ∧
    (helix_mp3_convert_pcm_mono_to_stereo [5, -7, 9, 9] 2).1.getD 2 0 = -7 ∧
    (helix_mp3_convert_pcm_mono_to_stereo [5, -7, 9, 9] 2).1.getD 3 0 = -7 := by
  have h := c3_mono_to_stereo [5, -7, 9, 9] 2 (by decide)
  have h0 := h.2 0 (by decide)
  have h1 := h.2 1 (by decide)
  exact ⟨h.1, by simpa using h0.1, by simpa using h0.2, by simpa using h1.1, by simpa using h1.2⟩

/-- C10: the Channel Normalizer writes no slot at index `2n` or beyond
(every store lands in slots `0 .. 2n-1`), and all those stores stay below a
capacity `M` precisely when `n` is at most `M / 2`; the loop itself checks
no bounds, so in-bounds execution rests on that precondition. -/
theorem c10_mono_write_bounds (buf : List Int) (n M : Nat) :
    (∀ p, 2 * n ≤ p → (monoLoop buf n).getD p 0 = buf.getD p 0) ∧
    ((∀ j, j < n → 2 * j < M ∧ 2 * j + 1 < M) ↔ n ≤ M / 2) := by
  refine ⟨fun p hp => monoLoop_getD_high n buf p hp, ?_, ?_⟩
  · intro h
    rcases Nat.eq_zero_or_pos n with h0 | h0
    · omega
    · have := h (n - 1) (by omega)
      omega
  · intro h j hj
    omega

/-- C10 witness: with one mono sample in a two-slot buffer the slot at
index 2 keeps its old value, and the bounds equivalence holds at the
concrete capacity 4, through the theorem itself. -/
theorem c10_mono_write_bounds_witness :
    (monoLoop [3, 8, 11] 1).getD 2 0 = 11 ∧ (1 ≤ 4 / 2 ↔ True) := by
  have h := c10_mono_write_bounds [3, 8, 11] 1 4
  refine ⟨?_, by simp⟩
  have := h.1 2 (by decide)
  simpa using this

/-! ## The opaque decode primitive and the Frame Pump (lines 71-115)

The external Helix calls `MP3FindSyncWord` and `MP3Decode` /
`MP3GetLastFrameInfo` are modelled as a parameter structure: `findSync`
yields the offset of a sync word in the given bytes (`none` for the C
negative return), and `decode` consumes some bytes from the unread region,
either producing a frame (PCM samples plus metadata), asking for more data
(bit-reservoir underflow, advancing past what it took), or failing.  On a
failing decode the wrapper exits its loop returning zero, so only the new
decode state is retained there. -/

structure FrameInfo where
  samprate : Nat
  bitrate : Nat
  outputSamps : Nat
  nChans : Nat
deriving DecidableEq, Repr

inductive DecResult (S : Type) where
  | ok (consumed : Nat) (pcm : List Int) (info : FrameInfo) (s : S)
  | underflow (consumed : Nat) (s : S)
  | fail (s : S)

structure Mp3Lib (S : Type) where
  findSync : List Nat → Option Nat
  decode : S → List Nat → DecResult S

/-- The unread region of the compressed-input buffer: `mp3_read_ptr` with
`mp3_buffer_bytes_left` bytes. -/
def unreadBytes {S : Type} (mp3 : Handle S) : List Nat :=
  (mp3.mp3Buffer.drop mp3.mp3ReadPtr).take mp3.mp3BytesLeft

/-- A store of `out` at the base of buffer `buf`, as `MP3Decode` writes its
output PCM at `mp3->pcm_buffer` (line 90). -/
def writeAtBase (buf out : List Int) : List Int :=
  out.take buf.length ++ buf.drop out.length

/-- The conditional refill at the top of the pump loop (lines 76-80). -/
def afterFill {S : Type} (C minChunk : Nat) (mp3 : Handle S) : Handle S :=
  if mp3.mp3BytesLeft < minChunk then fillAndUpdate C mp3 else mp3

/-- Advancing `mp3_read_ptr` while shrinking `mp3_buffer_bytes_left`, as
lines 87-88 do for the sync offset and `MP3Decode` does for what it
consumed. -/
def advanceBy {S : Type} (mp3 : Handle S) (k : Nat) : Handle S :=
  { mp3 with mp3ReadPtr := mp3.mp3ReadPtr + k, mp3BytesLeft := mp3.mp3BytesLeft - k }

/-- The success branch of the pump (lines 91-103): record the frame
metadata, stage the PCM at the buffer base, set `pcm_samples_left` to the
output sample count, and normalize mono output to stereo. -/
def pumpOk {S : Type} (mp3b : Handle S) (consumed : Nat) (pcm : List Int)
    (info : FrameInfo) (s : S) : Handle S :=
  let mp3c := { advanceBy mp3b consumed with
                dec := s,
                currentSampleRate := info.samprate,
                currentBitrate := info.bitrate,
                pcmBuffer := writeAtBase mp3b.pcmBuffer pcm,
                pcmSamplesLeft := info.outputSamps }
  if info.nChans = 1 then
    { mp3c with
      pcmBuffer := (helix_mp3_convert_pcm_mono_to_stereo mp3c.pcmBuffer mp3c.pcmSamplesLeft).1,
      pcmSamplesLeft := (helix_mp3_convert_pcm_mono_to_stereo mp3c.pcmBuffer mp3c.pcmSamplesLeft).2 }
  else mp3c

/-- The decode call and its three outcomes (lines 90-111), on the handle
already advanced to the sync word. -/
def pumpSynced {S : Type} (lib : Mp3Lib S) (mp3b : Handle S) :
    Sum (Nat × Handle S) (Handle S) :=
  match lib.decode mp3b.dec (unreadBytes mp3b) with
  | DecResult.ok consumed pcm info s =>
    Sum.inl ((pumpOk mp3b consumed pcm info s).pcmSamplesLeft, pumpOk mp3b consumed pcm info s)
  | DecResult.underflow consumed s => Sum.inr { advanceBy mp3b consumed with dec := s }
  | DecResult.fail s => Sum.inl (0, { mp3b with dec := s })

/-- One iteration of the `while (1)` body of `helix_mp3_decode_next_frame`:
`Sum.inl` is a `break` with the returned sample count, `Sum.inr` is the
`continue` of the underflow branch. -/
def pumpIter {S : Type} (lib : Mp3Lib S) (C minChunk : Nat) (mp3 : Handle S) :
    Sum (Nat × Handle S) (Handle S) :=
  match lib.findSync (unreadBytes (afterFill C minChunk mp3)) with
  | none => Sum.inl (0, afterFill C minChunk mp3)
  | some off => pumpSynced lib (advanceBy (afterFill C minChunk mp3) off)

/-- Embeds the retry loop of `helix_mp3_decode_next_frame` with an explicit
iteration budget; `none` marks budget exhaustion, which theorem C9 shows
cannot happen once the budget exceeds `pumpMeasure`. -/
def helix_mp3_decode_next_frame_fuel {S : Type} (lib : Mp3Lib S) (C minChunk : Nat) :
    Nat → Handle S → Option (Nat × Handle S)
  | 0, _ => none
  | fuel + 1, mp3 =>
    match pumpIter lib C minChunk mp3 with
    | Sum.inl r => some r
    | Sum.inr m => helix_mp3_decode_next_frame_fuel lib C minChunk fuel m

/-- Termination measure for the pump loop: bytes still unread in the byte
source plus bytes still unread in the input buffer. -/
def pumpMeasure {S : Type} (mp3 : Handle S) : Nat :=
  (mp3.mp3Fd.data.length - mp3.mp3Fd.pos) + mp3.mp3BytesLeft

/-- The sync search never reports an offset past the bytes it was given
(the C routine returns an offset into the presented buffer or -1). -/
def SyncBounded {S : Type} (lib : Mp3Lib S) : Prop :=
  ∀ bytes off, lib.findSync bytes = some off → off < bytes.length

/-- A decode underflow consumes at least one byte of input: the Helix
primitive stores the partial frame it saw into its bit reservoir and
advances the read pointer past it before asking for more data. -/
def UnderflowConsumes {S : Type} (lib : Mp3Lib S) : Prop :=
  ∀ s bytes c s2, lib.decode s bytes = DecResult.underflow c s2 → 1 ≤ c

theorem fillAndUpdate_measure {S : Type} (C : Nat) (mp3 : Handle S) :
    pumpMeasure (fillAndUpdate C mp3) = pumpMeasure mp3 := by
  unfold pumpMeasure fillAndUpdate helix_mp3_fill_mp3_buffer freadBytes
  simp [List.length_take, List.length_drop]
  omega

theorem afterFill_measure {S : Type} (C minChunk : Nat) (mp3 : Handle S) :
    pumpMeasure (afterFill C minChunk mp3) = pumpMeasure mp3 := by
  unfold afterFill
  split
  · exact fillAndUpdate_measure C mp3
  · rfl

theorem unreadBytes_length_le {S : Type} (mp3 : Handle S) :
    (unreadBytes mp3).length ≤ mp3.mp3BytesLeft := by
  simp [unreadBytes, List.length_take]

theorem pumpIter_continue_measure {S : Type} (lib : Mp3Lib S) (C minChunk : Nat)
    (hsync : SyncBounded lib) (hund : UnderflowConsumes lib)
    (mp3 m : Handle S) (h : pumpIter lib C minChunk mp3 = Sum.inr m) :
    pumpMeasure m < pumpMeasure mp3 := by
  rcases hfs : lib.findSync (unreadBytes (afterFill C minChunk mp3)) with _ | off
  · exfalso
    unfold pumpIter at h
    rw [hfs] at h
    exact Sum.noConfusion h
  · have h2 : pumpSynced lib (advanceBy (afterFill C minChunk mp3) off) = Sum.inr m := by
      unfold pumpIter at h
      rw [hfs] at h
      exact h
    have hoff : off < (unreadBytes (afterFill C minChunk mp3)).length := hsync _ _ hfs
    have hoff2 : off < (afterFill C minChunk mp3).mp3BytesLeft := by
      have := unreadBytes_length_le (afterFill C minChunk mp3)
      omega
    unfold pumpSynced at h2
    rcases hdec : lib.decode (advanceBy (afterFill C minChunk mp3) off).dec
        (unreadBytes (advanceBy (afterFill C minChunk mp3) off)) with
      ⟨consumed, pcm, info, s⟩ | ⟨consumed, s⟩ | ⟨s⟩
    · rw [hdec] at h2
      exact Sum.noConfusion h2
    · rw [hdec] at h2
      simp only [Sum.inr.injEq] at h2
      have hc : 1 ≤ consumed := hund _ _ _ _ hdec
      have hmeq := afterFill_measure C minChunk mp3
      subst h2
      simp only [pumpMeasure, advanceBy] at *
      omega
    · rw [hdec] at h2
      exact Sum.noConfusion h2

theorem pump_fuel_sufficient {S : Type} (lib : Mp3Lib S) (C minChunk : Nat)
    (hsync : SyncBounded lib) (hund : UnderflowConsumes lib) :
    ∀ (fuel : Nat) (mp3 : Handle S), pumpMeasure mp3 < fuel →
      (helix_mp3_decode_next_frame_fuel lib C minChunk fuel mp3).isSome = true := by
  intro fuel
  induction fuel with
  | zero => intro mp3 h; omega
  | succ fuel ih =>
    intro mp3 h
    rw [helix_mp3_decode_next_frame_fuel]
    rcases hp : pumpIter lib C minChunk mp3 with r | m
    · simp
    · have := pumpIter_continue_measure lib C minChunk hsync hund mp3 m hp
      exact ih m (by omega)

/-- C9: the Frame Pump retry loop terminates on every invocation: under the
interface facts that the sync search reports offsets inside the presented
bytes and that an underflow consumes at least one byte, a budget of
`pumpMeasure + 1` iterations (unread source bytes plus unread buffer bytes,
plus one) always suffices to reach a `break`, delivering a sample count
(positive on success, zero on exhaustion). -/
theorem c9_pump_terminates {S : Type} (lib : Mp3Lib S) (C minChunk : Nat)
    (hsync : SyncBounded lib) (hund : UnderflowConsumes lib) (mp3 : Handle S) :
    (helix_mp3_decode_next_frame_fuel lib C minChunk (pumpMeasure mp3 + 1) mp3).isSome
      = true :=
  pump_fuel_sufficient lib C minChunk hsync hund (pumpMeasure mp3 + 1) mp3 (by omega)

/-- A tiny concrete instance of the decode interface used by witnesses:
sync at offset 0 whenever bytes are present, and a decode that consumes one
byte as underflow until fewer than four bytes remain, then fails. -/
def toyLib : Mp3Lib Unit :=
  { findSync := fun bytes => if bytes.length = 0 then none else some 0,
    decode := fun s bytes =>
      if bytes.length < 4 then DecResult.fail s else DecResult.underflow 1 s }

theorem toyLib_sync_bounded : SyncBounded toyLib := by
  intro bytes off h
  unfold toyLib at h
  simp only at h
  split at h
  · simp at h
  · simp at h
    omega

theorem toyLib_underflow_consumes : UnderflowConsumes toyLib := by
  intro s bytes c s2 h
  unfold toyLib at h
  simp only at h
  split at h
  · simp at h
  · simp at h
    omega

/-- C9 witness: on a concrete handle holding five unread bytes over an
exhausted source the pump halts within its budget, by the theorem at that
input. -/
theorem c9_pump_terminates_witness :
    (helix_mp3_decode_next_frame_fuel toyLib 8 4 6
      { dec := (), mp3Fd := { data := [1], pos := 1 },
        mp3Buffer := [255, 0, 0, 0, 0, 9, 9, 9], mp3ReadPtr := 0, mp3BytesLeft := 5,
        pcmBuffer := [], pcmSamplesLeft := 0,
        currentSampleRate := 0, currentBitrate := 0, currentPcmFrame := 0 }).isSome = true :=
  c9_pump_terminates toyLib 8 4 toyLib_sync_bounded toyLib_underflow_consumes
    { dec := (), mp3Fd := { data := [1], pos := 1 },
      mp3Buffer := [255, 0, 0, 0, 0, 9, 9, 9], mp3ReadPtr := 0, mp3BytesLeft := 5,
      pcmBuffer := [], pcmSamplesLeft := 0,
      currentSampleRate := 0, currentBitrate := 0, currentPcmFrame := 0 }

/-! ## The PCM Stager and the read drain loop (lines 217-251)

For the drain loop the decode primitive's effect is abstracted to the
stream of frames the Frame Pump will deliver: `pendingFrames` lists each
successive pumped frame's post-normalization PCM.  A pump success writes
the frame at the PCM buffer base and sets `pcm_samples_left` to its sample
count (lines 90, 97, 102); exhaustion returns zero and changes nothing the
drain loop observes.  `currentPcmFrame` is the handle's running
`current_pcm_frame` counter. -/

structure ReadState where
  pcmBuffer : List Int
  pcmSamplesLeft : Nat
  currentPcmFrame : Nat
  pendingFrames : List (List Int)
deriving DecidableEq, Repr

/-- The observable effect of one `helix_mp3_decode_next_frame` call on the
PCM stager: deliver the next pending frame at the buffer base (or report
exhaustion with zero). -/
def pumpStep (st : ReadState) : Nat × ReadState :=
  match st.pendingFrames with
  | [] => (0, st)
  | f :: rest =>
    (f.length, { st with pcmBuffer := writeAtBase st.pcmBuffer f,
                         pcmSamplesLeft := f.length,
                         pendingFrames := rest })

/-- Total samples the stager can still deliver: the staged remainder plus
every pending frame. -/
def availSamples (st : ReadState) : Nat :=
  st.pcmSamplesLeft + (st.pendingFrames.map List.length).sum

/-- The stager invariant over PCM capacity `M`: the staged remainder is an
even sample count within the buffer, the buffer has the fixed capacity,
and every pending frame is nonempty, of even length (frames hold whole
interleaved stereo pairs: the wrapper doubles mono output and stereo
output counts both channels), and fits the buffer (the spec sizes `M` for
the largest single-frame output). -/
def StagerInv (M : Nat) (st : ReadState) : Prop :=
  st.pcmSamplesLeft % 2 = 0 ∧ st.pcmSamplesLeft ≤ M ∧ st.pcmBuffer.length = M ∧
  ∀ f, f ∈ st.pendingFrames → f ≠ [] ∧ f.length % 2 = 0 ∧ f.length ≤ M

instance (M : Nat) (st : ReadState) : Decidable (StagerInv M st) := by
  unfold StagerInv
  infer_instance

/-- The samples one loop iteration copies to the caller (line 230): `k`
samples from offset `M - pcm_samples_left` of the PCM buffer. -/
def consumeChunk (M : Nat) (st : ReadState) (k : Nat) : List Int :=
  (st.pcmBuffer.drop (M - st.pcmSamplesLeft)).take k

/-- The state updates of lines 232-233: advance the delivered-frames
counter by the whole stereo pairs copied and shrink the staged remainder. -/
def consumeFromPcm (M : Nat) (st : ReadState) (k : Nat) : ReadState :=
  { st with currentPcmFrame := st.currentPcmFrame + k / 2,
            pcmSamplesLeft := st.pcmSamplesLeft - k }

theorem consumeFromPcm_left (M : Nat) (st : ReadState) (k : Nat) :
    (consumeFromPcm M st k).pcmSamplesLeft = st.pcmSamplesLeft - k := rfl

theorem pumpStep_left (st : ReadState) :
    ((pumpStep st).1 = 0 ∧ (pumpStep st).2 = st) ∨
    (pumpStep st).2.pcmSamplesLeft = (pumpStep st).1 := by
  unfold pumpStep
  rcases hf : st.pendingFrames with _ | ⟨f, rest⟩
  · left
    simp
  · right
    simp

/-- The `while (1)` drain loop of `helix_mp3_read_pcm_frames_s16` (lines
226-248): copy what the stager holds, count delivered pairs, pump when the
stager empties, stop on pump exhaustion or on a satisfied request. -/
def readLoop (M : Nat) (st : ReadState) (out : List Int) (samplesToRead : Nat) :
    ReadState × List Int :=
  let k := min st.pcmSamplesLeft samplesToRead
  let out2 := out ++ consumeChunk M st k
  let st2 := consumeFromPcm M st k
  let str2 := samplesToRead - k
  if h0 : st2.pcmSamplesLeft = 0 then
    if hp : (pumpStep st2).1 = 0 then ((pumpStep st2).2, out2)
    else if hs : str2 = 0 then ((pumpStep st2).2, out2)
    else readLoop M (pumpStep st2).2 out2 str2
  else
    if hs : str2 = 0 then (st2, out2)
    else readLoop M st2 out2 str2
termination_by 2 * samplesToRead + (if st.pcmSamplesLeft = 0 then 1 else 0)
decreasing_by
  · rw [consumeFromPcm_left] at h0
    rcases pumpStep_left (consumeFromPcm M st (min st.pcmSamplesLeft samplesToRead)) with
      hz | heq
    · exact absurd hz.1 hp
    · have hpl : (pumpStep (consumeFromPcm M st
          (min st.pcmSamplesLeft samplesToRead))).2.pcmSamplesLeft ≠ 0 := by
        rw [heq]
        exact hp
      rw [if_neg hpl]
      by_cases hl : st.pcmSamplesLeft = 0
      · rw [if_pos hl]
        omega
      · rw [if_neg hl]
        omega
  · rw [consumeFromPcm_left] at h0
    exfalso
    omega

theorem writeAtBase_length (buf out : List Int) :
    (writeAtBase buf out).length = buf.length := by
  simp [writeAtBase, List.length_take, List.length_drop]
  omega

theorem lengths_sum_even (l : List (List Int)) (h : ∀ f, f ∈ l → f.length % 2 = 0) :
    (l.map List.length).sum % 2 = 0 := by
  induction l with
  | nil => rfl
  | cons f rest ih =>
    have hf := h f (by simp)
    have hr := ih (fun g hg => h g (by simp [hg]))
    simp only [List.map_cons, List.sum_cons]
    omega

theorem availSamples_even (M : Nat) (st : ReadState) (hinv : StagerInv M st) :
    availSamples st % 2 = 0 := by
  have := lengths_sum_even st.pendingFrames (fun f hf => (hinv.2.2.2 f hf).2.1)
  have := hinv.1
  simp only [availSamples]
  omega

theorem pumpStep_counter (st : ReadState) :
    (pumpStep st).2.currentPcmFrame = st.currentPcmFrame := by
  unfold pumpStep
  rcases hf : st.pendingFrames with _ | ⟨f, rest⟩ <;> simp

theorem consumeChunk_length (M : Nat) (st : ReadState) (k : Nat)
    (hk : k ≤ st.pcmSamplesLeft) (hle : st.pcmSamplesLeft ≤ M)
    (hbuf : st.pcmBuffer.length = M) :
    (consumeChunk M st k).length = k := by
  simp [consumeChunk, List.length_take, List.length_drop, hbuf]
  omega

/-- The drain loop unfolded once, with the local values inlined. -/
theorem readLoop_unfold (M : Nat) (st : ReadState) (out : List Int) (str : Nat) :
    readLoop M st out str =
      if (consumeFromPcm M st (min st.pcmSamplesLeft str)).pcmSamplesLeft = 0 then
        if (pumpStep (consumeFromPcm M st (min st.pcmSamplesLeft str))).1 = 0 then
          ((pumpStep (consumeFromPcm M st (min st.pcmSamplesLeft str))).2,
            out ++ consumeChunk M st (min st.pcmSamplesLeft str))
        else if str - min st.pcmSamplesLeft str = 0 then
          ((pumpStep (consumeFromPcm M st (min st.pcmSamplesLeft str))).2,
            out ++ consumeChunk M st (min st.pcmSamplesLeft str))
        else
          readLoop M (pumpStep (consumeFromPcm M st (min st.pcmSamplesLeft str))).2
            (out ++ consumeChunk M st (min st.pcmSamplesLeft str))
            (str - min st.pcmSamplesLeft str)
      else
        if str - min st.pcmSamplesLeft str = 0 then
          (consumeFromPcm M st (min st.pcmSamplesLeft str),
            out ++ consumeChunk M st (min st.pcmSamplesLeft str))
        else
          readLoop M (consumeFromPcm M st (min st.pcmSamplesLeft str))
            (out ++ consumeChunk M st (min st.pcmSamplesLeft str))
            (str - min st.pcmSamplesLeft str) := by
  rw [readLoop]
  simp only [dite_eq_ite]

/-- The main drain-loop ledger: over a stager satisfying the invariant and
an even sample request, the loop appends exactly
`min str (availSamples st)` samples to the caller buffer, removes the same
amount from the available total, advances the delivered-frames counter by
exactly that amount of stereo pairs, and preserves the invariant. -/
theorem readLoop_spec (M : Nat) (n : Nat) :
    ∀ (st : ReadState) (out : List Int) (str : Nat),
      2 * str + (if st.pcmSamplesLeft = 0 then 1 else 0) ≤ n →
      StagerInv M st → str % 2 = 0 →
      (readLoop M st out str).2.length = out.length + min str (availSamples st) ∧
      availSamples (readLoop M st out str).1 =
        availSamples st - min str (availSamples st) ∧
      (readLoop M st out str).1.currentPcmFrame =
        st.currentPcmFrame + min str (availSamples st) / 2 ∧
      StagerInv M (readLoop M st out str).1 := by
  induction n using Nat.strong_induction_on with
  | _ n ih =>
    intro st out str hb hinv hstr
    obtain ⟨hev, hle, hbuf, hframes⟩ := hinv
    have hkev : min st.pcmSamplesLeft str % 2 = 0 := by
      rcases min_choice st.pcmSamplesLeft str with h | h <;> omega
    have hchunklen : (consumeChunk M st (min st.pcmSamplesLeft str)).length =
        min st.pcmSamplesLeft str :=
      consumeChunk_length M st _ (Nat.min_le_left _ _) hle hbuf
    rw [readLoop_unfold]
    by_cases h0 : (consumeFromPcm M st (min st.pcmSamplesLeft str)).pcmSamplesLeft = 0
    · rw [if_pos h0]
      rw [consumeFromPcm_left] at h0
      rcases hpend : st.pendingFrames with _ | ⟨f, rest⟩
      · have hcond : (pumpStep (consumeFromPcm M st (min st.pcmSamplesLeft str))).1 = 0 := by
          unfold pumpStep
          simp [consumeFromPcm, hpend]
        have hps2 : (pumpStep (consumeFromPcm M st (min st.pcmSamplesLeft str))).2 =
            consumeFromPcm M st (min st.pcmSamplesLeft str) := by
          unfold pumpStep
          simp [consumeFromPcm, hpend]
        rw [if_pos hcond, hps2]
        have havail : availSamples st = st.pcmSamplesLeft := by
          simp [availSamples, hpend]
        refine ⟨?_, ?_, ?_, ?_, ?_, ?_, ?_⟩
        · simp only [List.length_append, hchunklen, havail]
          omega
        · simp only [availSamples, consumeFromPcm, hpend, List.map_nil, List.sum_nil,
            havail]
          omega
        · simp only [consumeFromPcm, havail]
          omega
        · simp only [consumeFromPcm]
          omega
        · simp only [consumeFromPcm]
          omega
        · simp only [consumeFromPcm, hbuf]
        · intro g hg
          simp only [consumeFromPcm, hpend] at hg
          simp at hg
      · have hf := hframes f (by rw [hpend]; simp)
        have hflen : f.length ≠ 0 := by
          intro hzz
          exact hf.1 (List.length_eq_zero.mp hzz)
        have hcond : (pumpStep (consumeFromPcm M st (min st.pcmSamplesLeft str))).1 =
            f.length := by
          unfold pumpStep
          simp [consumeFromPcm, hpend]
        have hps2 : (pumpStep (consumeFromPcm M st (min st.pcmSamplesLeft str))).2 =
            (⟨writeAtBase st.pcmBuffer f, f.length,
              st.currentPcmFrame + min st.pcmSamplesLeft str / 2, rest⟩ : ReadState) := by
          unfold pumpStep
          simp [consumeFromPcm, hpend]
        have havail : availSamples st =
            st.pcmSamplesLeft + (f.length + (rest.map List.length).sum) := by
          simp [availSamples, hpend]
        have hkeq : min st.pcmSamplesLeft str = st.pcmSamplesLeft := by omega
        have hinv3 : StagerInv M (⟨writeAtBase st.pcmBuffer f, f.length,
            st.currentPcmFrame + min st.pcmSamplesLeft str / 2, rest⟩ : ReadState) := by
          refine ⟨hf.2.1, hf.2.2, by simp [writeAtBase_length, hbuf], ?_⟩
          intro g hg
          exact hframes g (by rw [hpend]; simp at hg ⊢; exact Or.inr hg)
        have havail3 : availSamples (⟨writeAtBase st.pcmBuffer f, f.length,
            st.currentPcmFrame + min st.pcmSamplesLeft str / 2, rest⟩ : ReadState) =
            f.length + (rest.map List.length).sum := by
          simp [availSamples]
        rw [if_neg (by rw [hcond]; exact hflen)]
        by_cases hs : str - min st.pcmSamplesLeft str = 0
        · rw [if_pos hs, hps2]
          refine ⟨?_, ?_, ?_, ?_, ?_, ?_, ?_⟩
          · simp only [List.length_append, hchunklen, havail]
            omega
          · rw [havail3, havail]
            omega
          · simp only [havail]
            omega
          · exact hf.2.1
          · exact hf.2.2
          · simp [writeAtBase_length, hbuf]
          · intro g hg
            simp only at hg
            exact hframes g (by rw [hpend]; simp at hg ⊢; exact Or.inr hg)
        · rw [if_neg hs, hps2]
          have hstr2 : (str - min st.pcmSamplesLeft str) % 2 = 0 := by omega
          have hmdec : 2 * (str - min st.pcmSamplesLeft str) +
              (if (⟨writeAtBase st.pcmBuffer f, f.length,
                st.currentPcmFrame + min st.pcmSamplesLeft str / 2, rest⟩ :
                ReadState).pcmSamplesLeft = 0 then 1 else 0) < n := by
            simp only []
            rw [if_neg hflen]
            by_cases hl : st.pcmSamplesLeft = 0
            · rw [if_pos hl] at hb
              omega
            · rw [if_neg hl] at hb
              omega
          have hrec := ih _ hmdec (⟨writeAtBase st.pcmBuffer f, f.length,
              st.currentPcmFrame + min st.pcmSamplesLeft str / 2, rest⟩ : ReadState)
            (out ++ consumeChunk M st (min st.pcmSamplesLeft str))
            (str - min st.pcmSamplesLeft str) (le_refl _) hinv3 hstr2
          obtain ⟨hrl, hra, hrc, hri⟩ := hrec
          have hav3ev : availSamples (⟨writeAtBase st.pcmBuffer f, f.length,
              st.currentPcmFrame + min st.pcmSamplesLeft str / 2, rest⟩ : ReadState) % 2
              = 0 := availSamples_even M _ hinv3
          refine ⟨?_, ?_, ?_, hri⟩
          · rw [hrl]
            simp only [List.length_append, hchunklen, havail3, havail]
            omega
          · rw [hra, havail3, havail]
            omega
          · rw [hrc]
            dsimp only
            rw [havail3] at hav3ev ⊢
            rw [havail]
            omega
    · rw [if_neg h0]
      rw [consumeFromPcm_left] at h0
      have hkstr : min st.pcmSamplesLeft str = str := by omega
      have hs : str - min st.pcmSamplesLeft str = 0 := by omega
      rw [if_pos hs]
      refine ⟨?_, ?_, ?_, ?_, ?_, ?_, ?_⟩
      · simp only [List.length_append, hchunklen, availSamples]
        omega
      · simp only [availSamples, consumeFromPcm]
        omega
      · simp only [consumeFromPcm, availSamples]
        omega
      · simp only [consumeFromPcm]
        omega
      · simp only [consumeFromPcm]
        omega
      · simp only [consumeFromPcm]
        exact hbuf
      · intro g hg
        exact hframes g hg

/-- Embeds `helix_mp3_read_pcm_frames_s16` over the stager state: a zero
request short-circuits (line 219); otherwise the drain loop runs on
`frames_to_read * HELIX_MP3_SAMPLES_PER_FRAME` samples and the call
returns `samples_read / HELIX_MP3_SAMPLES_PER_FRAME` stereo frames, the
final state, and the samples written to the caller buffer. -/
def helix_mp3_read_pcm_frames_s16 (M : Nat) (st : ReadState) (framesToRead : Nat) :
    Nat × ReadState × List Int :=
  if framesToRead = 0 then (0, st, [])
  else
    let r := readLoop M st [] (framesToRead * 2)
    (r.2.length / 2, r.1, r.2)

/-- A sequence of read calls, returning each call's result and the final
stager state. -/
def runReads (M : Nat) (st : ReadState) : List Nat → List Nat × ReadState
  | [] => ([], st)
  | r :: rs =>
    (((helix_mp3_read_pcm_frames_s16 M st r).1 ::
        (runReads M (helix_mp3_read_pcm_frames_s16 M st r).2.1 rs).1),
      (runReads M (helix_mp3_read_pcm_frames_s16 M st r).2.1 rs).2)

theorem readLoop_counter_mono (M : Nat) (n : Nat) :
    ∀ (st : ReadState) (out : List Int) (str : Nat),
      2 * str + (if st.pcmSamplesLeft = 0 then 1 else 0) ≤ n →
      st.currentPcmFrame ≤ (readLoop M st out str).1.currentPcmFrame := by
  induction n using Nat.strong_induction_on with
  | _ n ih =>
    intro st out str hb
    rw [readLoop_unfold]
    by_cases h0 : (consumeFromPcm M st (min st.pcmSamplesLeft str)).pcmSamplesLeft = 0
    · rw [if_pos h0]
      by_cases hp : (pumpStep (consumeFromPcm M st (min st.pcmSamplesLeft str))).1 = 0
      · rw [if_pos hp, pumpStep_counter]
        simp only [consumeFromPcm]
        omega
      · rw [if_neg hp]
        by_cases hs : str - min st.pcmSamplesLeft str = 0
        · rw [if_pos hs, pumpStep_counter]
          simp only [consumeFromPcm]
          omega
        · rw [if_neg hs]
          rcases pumpStep_left (consumeFromPcm M st (min st.pcmSamplesLeft str)) with hz | heq
          · exact absurd hz.1 hp
          · have hpl : (pumpStep (consumeFromPcm M st
                (min st.pcmSamplesLeft str))).2.pcmSamplesLeft ≠ 0 := by
              rw [heq]
              exact hp
            have hdec : 2 * (str - min st.pcmSamplesLeft str) +
                (if (pumpStep (consumeFromPcm M st
                  (min st.pcmSamplesLeft str))).2.pcmSamplesLeft = 0 then 1 else 0) < n := by
              rw [if_neg hpl]
              rw [consumeFromPcm_left] at h0
              by_cases hl : st.pcmSamplesLeft = 0
              · rw [if_pos hl] at hb
                omega
              · rw [if_neg hl] at hb
                omega
            have hih := ih _ hdec (pumpStep (consumeFromPcm M st
                (min st.pcmSamplesLeft str))).2
              (out ++ consumeChunk M st (min st.pcmSamplesLeft str))
              (str - min st.pcmSamplesLeft str) (le_refl _)
            calc st.currentPcmFrame
                ≤ (consumeFromPcm M st (min st.pcmSamplesLeft str)).currentPcmFrame := by
                  simp only [consumeFromPcm]
                  omega
              _ = (pumpStep (consumeFromPcm M st
                    (min st.pcmSamplesLeft str))).2.currentPcmFrame :=
                  (pumpStep_counter _).symm
              _ ≤ _ := hih
    · rw [if_neg h0]
      by_cases hs : str - min st.pcmSamplesLeft str = 0
      · rw [if_pos hs]
        simp only [consumeFromPcm]
        omega
      · exfalso
        rw [consumeFromPcm_left] at h0
        omega

/-- The per-call ledger of `helix_mp3_read_pcm_frames_s16`: it returns
`min requested (available stereo frames)`, removes exactly the returned
frames from the available total, advances the delivered counter by exactly
the returned frames, and preserves the stager invariant. -/
theorem read_frames_spec (M : Nat) (st : ReadState) (r : Nat) (hinv : StagerInv M st) :
    (helix_mp3_read_pcm_frames_s16 M st r).1 = min r (availSamples st / 2) ∧
    availSamples (helix_mp3_read_pcm_frames_s16 M st r).2.1 =
      availSamples st - 2 * min r (availSamples st / 2) ∧
    (helix_mp3_read_pcm_frames_s16 M st r).2.1.currentPcmFrame =
      st.currentPcmFrame + (helix_mp3_read_pcm_frames_s16 M st r).1 ∧
    StagerInv M (helix_mp3_read_pcm_frames_s16 M st r).2.1 := by
  have havev := availSamples_even M st hinv
  by_cases hr : r = 0
  · subst hr
    refine ⟨by simp [helix_mp3_read_pcm_frames_s16], by simp [helix_mp3_read_pcm_frames_s16],
      by simp [helix_mp3_read_pcm_frames_s16], by simpa [helix_mp3_read_pcm_frames_s16] using hinv⟩
  · have h := readLoop_spec M (2 * (r * 2) + (if st.pcmSamplesLeft = 0 then 1 else 0))
      st [] (r * 2) (le_refl _) hinv (by omega)
    obtain ⟨hl, ha, hc, hi⟩ := h
    simp only [helix_mp3_read_pcm_frames_s16, if_neg hr]
    refine ⟨?_, ?_, ?_, hi⟩
    · rw [hl]
      simp only [List.length_nil]
      omega
    · rw [ha]
      omega
    · rw [hc, hl]
      simp only [List.length_nil]
      omega

/-- C2 counterexample: a stream holding exactly two stereo frames, read by
one call requesting exactly those two frames, delivers all two frames —
the final read of a request sequence summing to the total returns exactly
its requested count, not fewer as the claim states. -/
theorem c2_counterexample :
    availSamples ⟨[5, 6, 7, 8], 4, 0, []⟩ = 2 * 2 ∧
    (helix_mp3_read_pcm_frames_s16 4 ⟨[5, 6, 7, 8], 4, 0, []⟩ 2).1 = 2 ∧
    ¬ (helix_mp3_read_pcm_frames_s16 4 ⟨[5, 6, 7, 8], 4, 0, []⟩ 2).1 < 2 := by
  have h := read_frames_spec 4 ⟨[5, 6, 7, 8], 4, 0, []⟩ 2 (by decide)
  refine ⟨by decide, ?_, ?_⟩
  · rw [h.1]
    decide
  · rw [h.1]
    decide

/-- C2 amended: over a valid stager, any sequence of read requests whose
frame counts sum to the stream's total available frames delivers exactly
that total, with every read — the final one included — returning exactly
its requested count; afterwards nothing is available and any subsequent
read returns 0. -/
theorem c2_read_conservation (M : Nat) (rs : List Nat) :
    ∀ st : ReadState, StagerInv M st → 2 * rs.sum = availSamples st →
      (runReads M st rs).1 = rs ∧
      availSamples (runReads M st rs).2 = 0 ∧
      ∀ r, (helix_mp3_read_pcm_frames_s16 M (runReads M st rs).2 r).1 = 0 := by
  induction rs with
  | nil =>
    intro st hinv hsum
    simp only [List.sum_nil, Nat.mul_zero] at hsum
    refine ⟨rfl, ?_, ?_⟩
    · show availSamples st = 0
      omega
    · intro r
      have h := read_frames_spec M st r hinv
      show (helix_mp3_read_pcm_frames_s16 M st r).1 = 0
      rw [h.1]
      omega
  | cons r rs ih =>
    intro st hinv hsum
    have havev := availSamples_even M st hinv
    simp only [List.sum_cons] at hsum
    have h := read_frames_spec M st r hinv
    have hmin : min r (availSamples st / 2) = r := by omega
    have hsum2 : 2 * rs.sum =
        availSamples (helix_mp3_read_pcm_frames_s16 M st r).2.1 := by
      rw [h.2.1]
      omega
    have hrest := ih (helix_mp3_read_pcm_frames_s16 M st r).2.1 h.2.2.2 hsum2
    simp only [runReads]
    refine ⟨?_, hrest.2.1, hrest.2.2⟩
    rw [hrest.1, h.1, hmin]

/-- C2 amended witness: a stager holding four staged samples plus one
pending two-sample frame (three stereo frames total), read as 2 then 1
frames, returns exactly [2, 1] and a further read returns 0, through the
theorem itself. -/
theorem c2_read_conservation_witness :
    (runReads 4 ⟨[5, 6, 7, 8], 4, 0, [[1, 2]]⟩ [2, 1]).1 = [2, 1] ∧
    (helix_mp3_read_pcm_frames_s16 4
      (runReads 4 ⟨[5, 6, 7, 8], 4, 0, [[1, 2]]⟩ [2, 1]).2 5).1 = 0 := by
  have h := c2_read_conservation 4 [2, 1] ⟨[5, 6, 7, 8], 4, 0, [[1, 2]]⟩
    (by decide) (by decide)
  exact ⟨h.1, h.2.2 5⟩

/-- C1 counterexample: after the pump delivers a two-sample frame into a
four-slot PCM buffer, the frame's samples occupy the FIRST two slots while
the buffer's last `samples_left` slots still hold stale data, and the next
read hands the caller that stale data instead of the decoded samples — the
claimed invariant fails whenever a frame does not fill the buffer. -/
theorem c1_counterexample :
    (pumpStep ⟨[0, 0, 0, 0], 0, 0, [[1, 2]]⟩).2.pcmSamplesLeft = 2 ∧
    (pumpStep ⟨[0, 0, 0, 0], 0, 0, [[1, 2]]⟩).2.pcmBuffer.drop
      (4 - (pumpStep ⟨[0, 0, 0, 0], 0, 0, [[1, 2]]⟩).2.pcmSamplesLeft) ≠ [1, 2] ∧
    (pumpStep ⟨[0, 0, 0, 0], 0, 0, [[1, 2]]⟩).2.pcmBuffer.take 2 = [1, 2] ∧
    (helix_mp3_read_pcm_frames_s16 4 (pumpStep ⟨[0, 0, 0, 0], 0, 0, [[1, 2]]⟩).2 1).2.2
      = [0, 0] := by
  refine ⟨by decide, by decide, by decide, ?_⟩
  rw [helix_mp3_read_pcm_frames_s16]
  rw [if_neg (by decide)]
  rw [readLoop_unfold]
  norm_num [pumpStep, consumeFromPcm, consumeChunk, writeAtBase]

/-- C1 amended: the unconsumed-samples invariant holds in the regime where
every decoded frame fills the PCM buffer exactly: a pumped frame of length
`M` lands in the last (equals all) `samples_left` slots, and consuming `k`
samples takes them from the front of the unread tail region, leaving the
remaining unread samples in the last `samples_left - k` slots.  A pumped
frame shorter than `M` instead lands at the base, violating the claimed
invariant (see the counterexample). -/
theorem c1_pcm_tail_invariant (M : Nat) (st : ReadState) (f : List Int)
    (rest : List (List Int)) (u : List Int) (k : Nat) :
    (st.pcmBuffer.length = M → st.pendingFrames = f :: rest → f.length = M →
      (pumpStep st).2.pcmBuffer.drop (M - (pumpStep st).2.pcmSamplesLeft) = f) ∧
    (st.pcmSamplesLeft ≤ M → k ≤ st.pcmSamplesLeft →
      st.pcmBuffer.drop (M - st.pcmSamplesLeft) = u →
      consumeChunk M st k = u.take k ∧
      (consumeFromPcm M st k).pcmBuffer.drop
        (M - (consumeFromPcm M st k).pcmSamplesLeft) = u.drop k) := by
  constructor
  · intro hbuf hpend hflen
    have hps : pumpStep st = (f.length,
        (⟨writeAtBase st.pcmBuffer f, f.length, st.currentPcmFrame, rest⟩ : ReadState)) := by
      unfold pumpStep
      rw [hpend]
    have h1 : writeAtBase st.pcmBuffer f = f := by
      unfold writeAtBase
      rw [List.take_of_length_le (by omega), List.drop_of_length_le (by omega),
        List.append_nil]
    rw [hps]
    dsimp only
    rw [h1, hflen, Nat.sub_self, List.drop_zero]
  · intro hle hk hu
    constructor
    · rw [consumeChunk, hu]
    · have harith : M - (st.pcmSamplesLeft - k) = (M - st.pcmSamplesLeft) + k := by omega
      simp only [consumeFromPcm]
      rw [harith, ← List.drop_drop, hu]

/-- C1 amended witness: a full two-sample frame pumped into a two-slot
buffer lands in the last two slots, and consuming one sample leaves the
other as the last slot, through the theorem itself. -/
theorem c1_pcm_tail_invariant_witness :
    (pumpStep ⟨[9, 9], 0, 0, [[3, 4]]⟩).2.pcmBuffer.drop
      (2 - (pumpStep ⟨[9, 9], 0, 0, [[3, 4]]⟩).2.pcmSamplesLeft) = [3, 4] ∧
    consumeChunk 2 ⟨[3, 4], 2, 0, []⟩ 1 = [3] ∧
    (consumeFromPcm 2 ⟨[3, 4], 2, 0, []⟩ 1).pcmBuffer.drop
      (2 - (consumeFromPcm 2 ⟨[3, 4], 2, 0, []⟩ 1).pcmSamplesLeft) = [4] := by
  have h1 := (c1_pcm_tail_invariant 2 ⟨[9, 9], 0, 0, [[3, 4]]⟩ [3, 4] [] [] 0).1
    (by decide) rfl (by decide)
  have h2 := (c1_pcm_tail_invariant 2 ⟨[3, 4], 2, 0, []⟩ [] [] [3, 4] 1).2
    (by decide) (by decide) (by decide)
  exact ⟨h1, by simpa using h2.1, by simpa using h2.2⟩

/-! ## Lifecycle: helix_mp3_init (lines 117-177), helix_mp3_deinit (179-191)

Allocation outcomes (`MP3InitDecoder`, the two `malloc` calls) and the
`fopen` outcome are environment effects the C code only observes; they are
supplied as an explicit environment record.  The resource ledger tracks,
for each of the four owned resources, whether the call acquired it and
whether its exit path released it; `free(NULL)` and `MP3FreeDecoder(NULL)`
are no-ops and the cleanup closes the byte source only when it was opened
(line 169), so a release is recorded exactly when the cleanup call had a
non-null argument. -/

structure ResFlags where
  dec : Bool
  mp3Buf : Bool
  pcmBuf : Bool
  src : Bool
deriving DecidableEq, Repr

/-- No resources. -/
def noRes : ResFlags := ⟨false, false, false, false⟩

/-- All four resources. -/
def allRes : ResFlags := ⟨true, true, true, true⟩

/-- The allocation and open outcomes init encounters. -/
structure InitEnv (S : Type) where
  decInit : Option S
  mp3BufAlloc : Bool
  pcmBufAlloc : Bool
  fileOpen : Option ByteFile
deriving Repr

/-- The zeroed handle after the tag skip, before the priming decode: both
buffers freshly allocated (contents irrelevant, modelled as zeros), all
counters zero from the memset of line 125. -/
def primedHandle (S : Type) (s0 : S) (fd : ByteFile) (C M : Nat) : Handle S :=
  { dec := s0, mp3Fd := (helix_mp3_skip_id3v2_tag fd).2,
    mp3Buffer := List.replicate C 0, mp3ReadPtr := 0, mp3BytesLeft := 0,
    pcmBuffer := List.replicate M 0, pcmSamplesLeft := 0,
    currentSampleRate := 0, currentBitrate := 0, currentPcmFrame := 0 }

/-- Embeds `helix_mp3_init`: result code, the populated handle on success,
and the acquired/released resource ledgers.  The priming pump call runs
with the sufficient budget of theorem C9. -/
def helix_mp3_init {S : Type} (lib : Mp3Lib S) (C minChunk M : Nat) (env : InitEnv S)
    (mp3Present pathPresent : Bool) :
    Int × Option (Handle S) × ResFlags × ResFlags :=
  if mp3Present = false ∨ pathPresent = false then
    (-einvalCode, none, noRes, noRes)
  else
    match env.decInit with
    | none => (-enomemCode, none, noRes, noRes)
    | some s0 =>
      if env.mp3BufAlloc = false then
        (-enomemCode, none, ⟨true, false, false, false⟩, ⟨true, false, false, false⟩)
      else if env.pcmBufAlloc = false then
        (-enomemCode, none, ⟨true, true, false, false⟩, ⟨true, true, false, false⟩)
      else
        match env.fileOpen with
        | none => (-enoentCode, none, ⟨true, true, true, false⟩, ⟨true, true, true, false⟩)
        | some fd =>
          if (helix_mp3_skip_id3v2_tag fd).1 < 0 then
            (-eioCode, none, allRes, allRes)
          else
            match helix_mp3_decode_next_frame_fuel lib C minChunk
                (pumpMeasure (primedHandle S s0 fd C M) + 1) (primedHandle S s0 fd C M) with
            | none => (-enotsupCode, none, allRes, allRes)
            | some r =>
              if r.1 = 0 then (-enotsupCode, none, allRes, allRes)
              else (0, some r.2, allRes, noRes)

/-- The handle fields `helix_mp3_deinit` inspects: which resources the
handle holds, with the byte source kept as an option because `fclose`
requires a non-null stream. -/
structure DHandle where
  fd : Option ByteFile
  pcmBuf : Bool
  mp3Buf : Bool
  dec : Bool
deriving DecidableEq, Repr

/-- Embeds `helix_mp3_deinit`: `-EINVAL` for a null handle; otherwise it
unconditionally calls `fclose(mp3->mp3_fd)` — undefined behavior (`none`)
when no byte source is open — then frees both buffers and the decode state
(null-safe calls), returning 0. -/
def helix_mp3_deinit : Option DHandle → Option (Int × ResFlags)
  | none => some (-einvalCode, noRes)
  | some h =>
    match h.fd with
    | none => none
    | some _ => some (0, ⟨h.dec, h.mp3Buf, h.pcmBuf, true⟩)

theorem fillAndUpdate_counter {S : Type} (C : Nat) (mp3 : Handle S) :
    (fillAndUpdate C mp3).currentPcmFrame = mp3.currentPcmFrame := rfl

theorem afterFill_counter {S : Type} (C minChunk : Nat) (mp3 : Handle S) :
    (afterFill C minChunk mp3).currentPcmFrame = mp3.currentPcmFrame := by
  unfold afterFill
  split <;> rfl

theorem pumpOk_counter {S : Type} (mp3b : Handle S) (consumed : Nat) (pcm : List Int)
    (info : FrameInfo) (s : S) :
    (pumpOk mp3b consumed pcm info s).currentPcmFrame = mp3b.currentPcmFrame := by
  unfold pumpOk
  dsimp only
  split <;> rfl

theorem pumpIter_counter_inl {S : Type} (lib : Mp3Lib S) (C minChunk : Nat)
    (mp3 m : Handle S) (r : Nat) (h : pumpIter lib C minChunk mp3 = Sum.inl (r, m)) :
    m.currentPcmFrame = mp3.currentPcmFrame := by
  rcases hfs : lib.findSync (unreadBytes (afterFill C minChunk mp3)) with _ | off
  · have h2 : Sum.inl ((0 : Nat), afterFill C minChunk mp3) =
        (Sum.inl (r, m) : Sum (Nat × Handle S) (Handle S)) := by
      unfold pumpIter at h
      rw [hfs] at h
      exact h
    simp only [Sum.inl.injEq, Prod.mk.injEq] at h2
    rw [← h2.2]
    exact afterFill_counter C minChunk mp3
  · have h2 : pumpSynced lib (advanceBy (afterFill C minChunk mp3) off) = Sum.inl (r, m) := by
      unfold pumpIter at h
      rw [hfs] at h
      exact h
    unfold pumpSynced at h2
    rcases hdec : lib.decode (advanceBy (afterFill C minChunk mp3) off).dec
        (unreadBytes (advanceBy (afterFill C minChunk mp3) off)) with
      ⟨consumed, pcm, info, s⟩ | ⟨consumed, s⟩ | ⟨s⟩
    · rw [hdec] at h2
      simp only [Sum.inl.injEq, Prod.mk.injEq] at h2
      rw [← h2.2, pumpOk_counter]
      exact afterFill_counter C minChunk mp3
    · rw [hdec] at h2
      simp at h2
    · rw [hdec] at h2
      simp only [Sum.inl.injEq, Prod.mk.injEq] at h2
      rw [← h2.2]
      exact afterFill_counter C minChunk mp3

theorem pumpIter_counter_inr {S : Type} (lib : Mp3Lib S) (C minChunk : Nat)
    (mp3 m : Handle S) (h : pumpIter lib C minChunk mp3 = Sum.inr m) :
    m.currentPcmFrame = mp3.currentPcmFrame := by
  rcases hfs : lib.findSync (unreadBytes (afterFill C minChunk mp3)) with _ | off
  · exfalso
    unfold pumpIter at h
    rw [hfs] at h
    exact Sum.noConfusion h
  · have h2 : pumpSynced lib (advanceBy (afterFill C minChunk mp3) off) = Sum.inr m := by
      unfold pumpIter at h
      rw [hfs] at h
      exact h
    unfold pumpSynced at h2
    rcases hdec : lib.decode (advanceBy (afterFill C minChunk mp3) off).dec
        (unreadBytes (advanceBy (afterFill C minChunk mp3) off)) with
      ⟨consumed, pcm, info, s⟩ | ⟨consumed, s⟩ | ⟨s⟩
    · rw [hdec] at h2
      simp at h2
    · rw [hdec] at h2
      simp only [Sum.inr.injEq] at h2
      rw [← h2]
      exact afterFill_counter C minChunk mp3
    · rw [hdec] at h2
      simp at h2

theorem decode_fuel_counter {S : Type} (lib : Mp3Lib S) (C minChunk : Nat) :
    ∀ (fuel : Nat) (mp3 : Handle S) (r : Nat × Handle S),
      helix_mp3_decode_next_frame_fuel lib C minChunk fuel mp3 = some r →
      r.2.currentPcmFrame = mp3.currentPcmFrame := by
  intro fuel
  induction fuel with
  | zero =>
    intro mp3 r h
    exact Option.noConfusion h
  | succ fuel ih =>
    intro mp3 r h
    rw [helix_mp3_decode_next_frame_fuel] at h
    rcases hp : pumpIter lib C minChunk mp3 with ⟨q, m⟩ | m
    · rw [hp] at h
      simp only [Option.some.injEq] at h
      rw [← h]
      exact pumpIter_counter_inl lib C minChunk mp3 m q hp
    · rw [hp] at h
      rw [ih m r h, pumpIter_counter_inr lib C minChunk mp3 m hp]

/-- C6: init maps each failure to the claimed error code — invalid-argument
for null arguments, out-of-memory for any allocation failure, not-found
for a failed open, I/O-error for a failed tag skip, unsupported-format for
a zero-sample prime — and on every failure the set of resources released
by the cleanup equals the set acquired up to that point, while a
successful init releases nothing. -/
theorem c6_init_cleanup {S : Type} (lib : Mp3Lib S) (C minChunk M : Nat) (env : InitEnv S)
    (mp3Present pathPresent : Bool) :
    ((mp3Present = false ∨ pathPresent = false) →
      helix_mp3_init lib C minChunk M env mp3Present pathPresent =
        (-einvalCode, none, noRes, noRes)) ∧
    (mp3Present = true → pathPresent = true →
      ((env.decInit = none ∨ env.mp3BufAlloc = false ∨ env.pcmBufAlloc = false) →
        (helix_mp3_init lib C minChunk M env mp3Present pathPresent).1 = -enomemCode) ∧
      (env.decInit.isSome → env.mp3BufAlloc = true → env.pcmBufAlloc = true →
        env.fileOpen = none →
        (helix_mp3_init lib C minChunk M env mp3Present pathPresent).1 = -enoentCode) ∧
      (∀ fd, env.decInit.isSome → env.mp3BufAlloc = true → env.pcmBufAlloc = true →
        env.fileOpen = some fd → (helix_mp3_skip_id3v2_tag fd).1 < 0 →
        (helix_mp3_init lib C minChunk M env mp3Present pathPresent).1 = -eioCode) ∧
      (∀ fd s0 r, env.decInit = some s0 → env.mp3BufAlloc = true →
        env.pcmBufAlloc = true → env.fileOpen = some fd →
        ¬ (helix_mp3_skip_id3v2_tag fd).1 < 0 →
        helix_mp3_decode_next_frame_fuel lib C minChunk
          (pumpMeasure (primedHandle S s0 fd C M) + 1) (primedHandle S s0 fd C M) =
          some r → r.1 = 0 →
        (helix_mp3_init lib C minChunk M env mp3Present pathPresent).1 = -enotsupCode)) ∧
    ((helix_mp3_init lib C minChunk M env mp3Present pathPresent).1 ≠ 0 →
      (helix_mp3_init lib C minChunk M env mp3Present pathPresent).2.2.2 =
        (helix_mp3_init lib C minChunk M env mp3Present pathPresent).2.2.1) ∧
    ((helix_mp3_init lib C minChunk M env mp3Present pathPresent).1 = 0 →
      (helix_mp3_init lib C minChunk M env mp3Present pathPresent).2.2.2 = noRes) := by
  obtain ⟨d0, b1, b2, fo⟩ := env
  dsimp only
  refine ⟨?_, ?_, ?_, ?_⟩
  · intro h
    unfold helix_mp3_init
    rw [if_pos h]
  · intro hmp hpp
    refine ⟨?_, ?_, ?_, ?_⟩
    · intro hor
      unfold helix_mp3_init
      rw [if_neg (by simp [hmp, hpp])]
      rcases d0 with _ | s0
      · rfl
      · rcases hor with h | h | h
        · exact Option.noConfusion h
        · subst h
          rfl
        · subst h
          rcases b1
          · rfl
          · rfl
    · intro h1 h2 h3 h4
      subst h2
      subst h3
      subst h4
      rcases d0 with _ | s0
      · simp at h1
      · unfold helix_mp3_init
        rw [if_neg (by simp [hmp, hpp])]
        rfl
    · intro fd h1 h2 h3 h4 h5
      subst h2
      subst h3
      subst h4
      rcases d0 with _ | s0
      · simp at h1
      · unfold helix_mp3_init
        rw [if_neg (by simp [hmp, hpp])]
        simp [h5]
    · intro fd s0 r h1 h2 h3 h4 h5 h6 h7
      subst h1
      subst h2
      subst h3
      subst h4
      unfold helix_mp3_init
      rw [if_neg (by simp [hmp, hpp])]
      simp [h5, h6, h7]
  · intro hfail
    unfold helix_mp3_init at hfail ⊢
    by_cases hargs : mp3Present = false ∨ pathPresent = false
    · rw [if_pos hargs]
    · rw [if_neg hargs] at hfail ⊢
      rcases d0 with _ | s0
      · rfl
      · rcases b1
        · rfl
        · rcases b2
          · rfl
          · rcases fo with _ | fd
            · rfl
            · dsimp only at hfail ⊢
              simp only [if_neg (show ¬((true : Bool) = false) from by decide)] at hfail ⊢
              by_cases hskip : (helix_mp3_skip_id3v2_tag fd).1 < 0
              · rw [if_pos hskip]
              · rw [if_neg hskip] at hfail ⊢
                rcases hdec : helix_mp3_decode_next_frame_fuel lib C minChunk
                    (pumpMeasure (primedHandle S s0 fd C M) + 1)
                    (primedHandle S s0 fd C M) with _ | r
                · rfl
                · rw [hdec] at hfail
                  dsimp only at hfail ⊢
                  by_cases hz : r.1 = 0
                  · rw [if_pos hz]
                  · rw [if_neg hz] at hfail
                    exact absurd rfl hfail
  · intro hok
    unfold helix_mp3_init at hok ⊢
    by_cases hargs : mp3Present = false ∨ pathPresent = false
    · rw [if_pos hargs] at hok
      simp [einvalCode] at hok
    · rw [if_neg hargs] at hok ⊢
      rcases d0 with _ | s0
      · simp [enomemCode] at hok
      · rcases b1
        · simp [enomemCode] at hok
        · rcases b2
          · simp [enomemCode] at hok
          · rcases fo with _ | fd
            · simp [enoentCode] at hok
            · dsimp only at hok ⊢
              simp only [if_neg (show ¬((true : Bool) = false) from by decide)] at hok ⊢
              by_cases hskip : (helix_mp3_skip_id3v2_tag fd).1 < 0
              · rw [if_pos hskip] at hok
                simp [eioCode] at hok
              · rw [if_neg hskip] at hok ⊢
                rcases hdec : helix_mp3_decode_next_frame_fuel lib C minChunk
                    (pumpMeasure (primedHandle S s0 fd C M) + 1)
                    (primedHandle S s0 fd C M) with _ | r
                · rw [hdec] at hok
                  simp [enotsupCode] at hok
                · rw [hdec] at hok
                  dsimp only at hok ⊢
                  by_cases hz : r.1 = 0
                  · rw [if_pos hz] at hok
                    simp [enotsupCode] at hok
                  · rw [if_neg hz]

/-- C6 witness: with the PCM-buffer allocation failing, init reports
out-of-memory and the release ledger equals the acquired ledger, through
the theorem at this input. -/
theorem c6_init_cleanup_witness :
    (helix_mp3_init toyLib 4 2 4 ⟨some (), true, false, none⟩ true true).1 =
      -enomemCode ∧
    (helix_mp3_init toyLib 4 2 4 ⟨some (), true, false, none⟩ true true).2.2.2 =
      (helix_mp3_init toyLib 4 2 4 ⟨some (), true, false, none⟩ true true).2.2.1 := by
  have h := c6_init_cleanup toyLib 4 2 4 ⟨some (), true, false, none⟩ true true
  refine ⟨(h.2.1 rfl rfl).1 (Or.inr (Or.inr rfl)), h.2.2.1 ?_⟩
  rw [(h.2.1 rfl rfl).1 (Or.inr (Or.inr rfl))]
  decide

/-- C7 counterexample: a non-null handle whose byte source was never
opened — as a failed init can leave behind — makes deinit call
`fclose(NULL)`, which is undefined behavior, not success. -/
theorem c7_counterexample :
    helix_mp3_deinit (some ⟨none, false, false, false⟩) = none := rfl

/-- C7 amended: deinit returns invalid-argument exactly when given a null
handle; for every non-null handle it succeeds exactly when the byte source
is open (as it is after every successful init), closing the source and
releasing whichever buffers and decode state the handle holds; with no
open byte source the unconditional `fclose` is undefined behavior. -/
theorem c7_deinit_behavior (h : DHandle) :
    helix_mp3_deinit none = some (-einvalCode, noRes) ∧
    ((helix_mp3_deinit (some h)).isSome ↔ h.fd.isSome) ∧
    (h.fd.isSome →
      helix_mp3_deinit (some h) = some (0, ⟨h.dec, h.mp3Buf, h.pcmBuf, true⟩)) := by
  refine ⟨rfl, ?_, ?_⟩
  · rcases hf : h.fd with _ | f <;> simp [helix_mp3_deinit, hf]
  · intro hs
    obtain ⟨f, hf⟩ := Option.isSome_iff_exists.mp hs
    simp [helix_mp3_deinit, hf]

/-- C7 witness: deinit on a fully populated handle with an open byte
source succeeds and releases all four resources, through the theorem. -/
theorem c7_deinit_behavior_witness :
    helix_mp3_deinit (some ⟨some ⟨[1], 0⟩, true, true, true⟩) =
      some (0, ⟨true, true, true, true⟩) := by
  have h := (c7_deinit_behavior ⟨some ⟨[1], 0⟩, true, true, true⟩).2.2 (by decide)
  exact h

/-- Embeds `helix_mp3_get_pcm_frames_decoded` (lines 209-215) over the
stager view of the handle: zero for a null handle, else the running
counter. -/
def helix_mp3_get_pcm_frames_decoded : Option ReadState → Nat
  | none => 0
  | some st => st.currentPcmFrame

/-- C8: the delivered-frames counter is zero right after a successful init
(the priming pump never touches it); each read advances it by exactly the
stereo frames that call returned (whole pairs actually copied); and it
never decreases across a read. -/
theorem c8_frames_counter {S : Type} (lib : Mp3Lib S) (C minChunk M : Nat)
    (env : InitEnv S) (mp3Present pathPresent : Bool) :
    ((helix_mp3_init lib C minChunk M env mp3Present pathPresent).1 = 0 →
      ((helix_mp3_init lib C minChunk M env mp3Present pathPresent).2.1.map
        Handle.currentPcmFrame).getD 7 = 0) ∧
    (∀ (st : ReadState) (r : Nat), StagerInv M st →
      helix_mp3_get_pcm_frames_decoded
          (some (helix_mp3_read_pcm_frames_s16 M st r).2.1) =
        helix_mp3_get_pcm_frames_decoded (some st) +
          (helix_mp3_read_pcm_frames_s16 M st r).1) ∧
    (∀ (st : ReadState) (r : Nat),
      helix_mp3_get_pcm_frames_decoded (some st) ≤
        helix_mp3_get_pcm_frames_decoded
          (some (helix_mp3_read_pcm_frames_s16 M st r).2.1)) := by
  refine ⟨?_, ?_, ?_⟩
  · intro hok
    obtain ⟨d0, b1, b2, fo⟩ := env
    unfold helix_mp3_init at hok ⊢
    by_cases hargs : mp3Present = false ∨ pathPresent = false
    · rw [if_pos hargs] at hok
      simp [einvalCode] at hok
    · rw [if_neg hargs] at hok ⊢
      rcases d0 with _ | s0
      · simp [enomemCode] at hok
      · rcases b1
        · simp [enomemCode] at hok
        · rcases b2
          · simp [enomemCode] at hok
          · rcases fo with _ | fd
            · simp [enoentCode] at hok
            · dsimp only at hok ⊢
              simp only [if_neg (show ¬((true : Bool) = false) from by decide)] at hok ⊢
              by_cases hskip : (helix_mp3_skip_id3v2_tag fd).1 < 0
              · rw [if_pos hskip] at hok
                simp [eioCode] at hok
              · rw [if_neg hskip] at hok ⊢
                rcases hdec : helix_mp3_decode_next_frame_fuel lib C minChunk
                    (pumpMeasure (primedHandle S s0 fd C M) + 1)
                    (primedHandle S s0 fd C M) with _ | r
                · rw [hdec] at hok
                  simp [enotsupCode] at hok
                · rw [hdec] at hok
                  dsimp only at hok ⊢
                  by_cases hz : r.1 = 0
                  · rw [if_pos hz] at hok
                    simp [enotsupCode] at hok
                  · rw [if_neg hz]
                    simp only [Option.map_some', Option.getD_some]
                    rw [decode_fuel_counter lib C minChunk
                      (pumpMeasure (primedHandle S s0 fd C M) + 1)
                      (primedHandle S s0 fd C M) r hdec]
                    rfl
  · intro st r hinv
    have h := read_frames_spec M st r hinv
    simpa [helix_mp3_get_pcm_frames_decoded] using h.2.2.1
  · intro st r
    by_cases hr : r = 0
    · subst hr
      simp [helix_mp3_read_pcm_frames_s16, helix_mp3_get_pcm_frames_decoded]
    · have h := readLoop_counter_mono M
        (2 * (r * 2) + (if st.pcmSamplesLeft = 0 then 1 else 0)) st [] (r * 2) (le_refl _)
      simpa [helix_mp3_read_pcm_frames_s16, if_neg hr,
        helix_mp3_get_pcm_frames_decoded] using h

/-- A decode-interface instance whose decode consumes everything it is
given and emits one fixed stereo frame; used by the C8 witness to drive a
successful init. -/
def okLib : Mp3Lib Unit :=
  { findSync := fun bytes => if bytes.length = 0 then none else some 0,
    decode := fun s bytes =>
      if bytes.length = 0 then DecResult.fail s
      else DecResult.ok bytes.length [3, 4] ⟨44100, 128, 2, 2⟩ s }

/-- An all-successful init environment over a 12-byte untagged file. -/
def envGood : InitEnv Unit :=
  ⟨some (), true, true, some ⟨List.replicate 12 1, 0⟩⟩

/-- C8 witness: a concrete successful init leaves the counter at zero, and
a concrete one-frame read advances the counter by exactly its return
value, through the theorem at these inputs. -/
theorem c8_frames_counter_witness :
    ((helix_mp3_init okLib 4 2 4 envGood true true).2.1.map
      Handle.currentPcmFrame).getD 7 = 0 ∧
    helix_mp3_get_pcm_frames_decoded
        (some (helix_mp3_read_pcm_frames_s16 4 ⟨[5, 6, 7, 8], 4, 0, []⟩ 1).2.1) =
      helix_mp3_get_pcm_frames_decoded (some (⟨[5, 6, 7, 8], 4, 0, []⟩ : ReadState)) +
        (helix_mp3_read_pcm_frames_s16 4 ⟨[5, 6, 7, 8], 4, 0, []⟩ 1).1 :=
  ⟨(c8_frames_counter okLib 4 2 4 envGood true true).1 (by decide),
   (c8_frames_counter okLib 4 2 4 envGood true true).2.1 ⟨[5, 6, 7, 8], 4, 0, []⟩ 1
     (by decide)⟩

end HelixSpec
